import Mathlib

/-!
Verification of the dashcam-watermark pipeline (fuckteslacam).

The repository contains two near-identical single-file React pipelines:
`src/src/App.tsx` (called variant `v1` below) and `src/unnamed/part_000`
(variant `v2`).  The definitions below are a shallow embedding of the
functions those files define: `parseTimeFromFilename`, `drawWatermark`,
`renderFrames`, `finishProcessing`, `handleMetadataLoaded`, and the
progress-tracking interval of `processVideo`.  Strings are modelled as
`List Char`; machine numbers as `Nat`/`Int`/`ℚ`.

External browser / library facilities used by the code (the `Date`
constructor's string parsing, `dayjs(...).format`, `MediaRecorder.stop`)
are not part of the repository; they are modelled from the design
document's description and marked `Modelled from the spec:` in their
doc comments.
-/

/-- JavaScript `String.prototype.split` with a single-character separator:
splits into the (possibly empty) maximal separator-free pieces, always
returning at least one piece. -/
def splitOnChar (sep : Char) : List Char → List (List Char)
  | [] => [[]]
  | c :: cs =>
    if c = sep then [] :: splitOnChar sep cs
    else
      match splitOnChar sep cs with
      | [] => [[c]]
      | p :: ps => (c :: p) :: ps

/-- JavaScript `filename.substring(0, filename.lastIndexOf("."))`: everything
before the last dot; the empty string when there is no dot (since
`lastIndexOf` returns `-1` and `substring` clamps it to `0`). -/
def stripExt (cs : List Char) : List Char :=
  if '.' ∈ cs then ((cs.reverse.dropWhile (· ≠ '.')).tail).reverse else []

/-- Reads a nonempty all-digit string as a number; `none` otherwise. -/
def parseNatAux : Nat → List Char → Option Nat
  | acc, [] => some acc
  | acc, c :: cs =>
    if c.isDigit then parseNatAux (acc * 10 + (c.toNat - 48)) cs else none

/-- Numeric value of a nonempty digit string (`none` on empty or non-digit
input); models how the host date parser reads the numeric fields of a
date string. -/
def parseNat? (l : List Char) : Option Nat :=
  match l with
  | [] => none
  | _ :: _ => parseNatAux 0 l

/-- Gregorian leap-year test. -/
def isLeapYear (y : Nat) : Bool :=
  (y % 4 = 0 && y % 100 ≠ 0) || y % 400 = 0

/-- Number of days in a month of the proleptic Gregorian calendar. -/
def daysInMonth (y m : Nat) : Nat :=
  if m = 2 then (if isLeapYear y then 29 else 28)
  else if m = 4 ∨ m = 6 ∨ m = 9 ∨ m = 11 then 30
  else 31

/-- Days from the civil epoch 1970-01-01 to the given Gregorian date
(Howard Hinnant's `days_from_civil` algorithm). -/
def daysFromCivil (y m d : Int) : Int :=
  let y' := if m ≤ 2 then y - 1 else y
  let era := (if 0 ≤ y' then y' else y' - 399) / 400
  let yoe := y' - era * 400
  let mp := (m + 9) % 12
  let doy := (153 * mp + 2) / 5 + d - 1
  let doe := yoe * 365 + yoe / 4 - yoe / 100 + doy
  era * 146097 + doe - 719468

/-- Gregorian date of a day count relative to 1970-01-01 (Howard Hinnant's
`civil_from_days` algorithm). -/
def civilFromDays (z : Int) : Int × Int × Int :=
  let z' := z + 719468
  let era := (if 0 ≤ z' then z' else z' - 146096) / 146097
  let doe := z' - era * 146097
  let yoe := (doe - doe / 1460 + doe / 36524 - doe / 146096) / 365
  let y := yoe + era * 400
  let doy := doe - (365 * yoe + yoe / 4 - yoe / 100)
  let mp := (5 * doy + 2) / 153
  let d := doy - (153 * mp + 2) / 5 + 1
  let m := mp + (if mp < 10 then 3 else -9)
  (y + (if m ≤ 2 then 1 else 0), m, d)

/-- Epoch milliseconds of a local civil date-time, for a local timezone
`tz` given in minutes east of UTC: this is "the local instant
corresponding to that date and time" of the design document. -/
def civilToEpochMs (tz : Int) (y mo d h mi s : Nat) : Int :=
  (daysFromCivil (y : Int) (mo : Int) (d : Int) * 86400
      + (h : Int) * 3600 + (mi : Int) * 60 + (s : Int)) * 1000
    - tz * 60000

/-- Decimal digits of a number, padded on the left with zeros to width 2. -/
def pad2 (n : Nat) : List Char :=
  let ds := Nat.toDigits 10 n
  List.replicate (2 - ds.length) '0' ++ ds

/-- Decimal digits of a number, padded on the left with zeros to width 4. -/
def pad4 (n : Nat) : List Char :=
  let ds := Nat.toDigits 10 n
  List.replicate (4 - ds.length) '0' ++ ds

/-- Modelled from the spec: `dayjs(new Date(ms)).format("YYYY-MM-DD HH:mm:ss")`,
an external library call, which the design document (§4.3) describes as
formatting the instant as `YYYY-MM-DD HH:mm:ss` in local civil time.
`tz` is the local timezone in minutes east of UTC. -/
def formatTimestamp (tz : Int) (epochMs : Int) : List Char :=
  let localMs := epochMs + tz * 60000
  let days := Int.fdiv localMs 86400000
  let rem := (localMs - days * 86400000).toNat
  let secs := rem / 1000
  let ymd := civilFromDays days
  pad4 ymd.1.toNat ++ '-' :: pad2 ymd.2.1.toNat ++ '-' :: pad2 ymd.2.2.toNat
    ++ ' ' :: pad2 (secs / 3600) ++ ':' :: pad2 (secs / 60 % 60)
    ++ ':' :: pad2 (secs % 60)

/-- Modelled from the spec: the host environment's `new Date(str).getTime()`
on the strings the parser assembles (`"YYYY-MM-DD HH:MM:SS"`), an external
browser facility.  Per the design document (§4.1) a string describing a
valid civil date-time yields the local instant corresponding to that date
and time, and anything else fails to parse (`NaN`, modelled as `none`).
`tz` is the local timezone in minutes east of UTC. -/
def jsDateParse (tz : Int) (s : List Char) : Option Int :=
  match splitOnChar ' ' s with
  | [dpart, tpart] =>
    match splitOnChar '-' dpart, splitOnChar ':' tpart with
    | [ys, mos, ds], [hs, mis, ss] =>
      match parseNat? ys, parseNat? mos, parseNat? ds,
            parseNat? hs, parseNat? mis, parseNat? ss with
      | some y, some mo, some d, some h, some mi, some sec =>
        if 1000 ≤ y ∧ y ≤ 9999 ∧ 1 ≤ mo ∧ mo ≤ 12 ∧ 1 ≤ d ∧
            d ≤ daysInMonth y mo ∧ h ≤ 23 ∧ mi ≤ 59 ∧ sec ≤ 59
        then some (civilToEpochMs tz y mo d h mi sec)
        else none
      | _, _, _, _, _, _ => none
    | _, _ => none
  | _ => none

/-- Result of `parseTimeFromFilename`: either the parsed timestamp, or a
failure carrying the displayed warning message together with the fallback
timestamp (the current wall-clock instant) that the function returns. -/
inductive ParseOutcome where
  | parsed (t : Int) : ParseOutcome
  | failed (msg : String) (t : Int) : ParseOutcome
deriving DecidableEq

/-- Timestamp actually returned to the caller. -/
def ParseOutcome.time : ParseOutcome → Int
  | .parsed t => t
  | .failed _ t => t

/-- Whether a parse failure was signalled (a warning displayed). -/
def ParseOutcome.isFailed : ParseOutcome → Bool
  | .parsed _ => false
  | .failed _ _ => true

/-- Embedding of `parseTimeFromFilename` (identical in both source files):
strip the extension at the last dot, split on `_`, require at least two
parts, split the second part on `-`, require at least three fields,
assemble `"<date> <h>:<m>:<s>"` and hand it to the host date parser;
on any failure display a warning and return the current time `now`. -/
def parseTimeFromFilename (tz now : Int) (filename : List Char) : ParseOutcome :=
  match splitOnChar '_' (stripExt filename) with
  | datePart :: timeComp :: _ =>
    match splitOnChar '-' timeComp with
    | t0 :: t1 :: t2 :: _ =>
      match jsDateParse tz (datePart ++ ' ' :: (t0 ++ ':' :: (t1 ++ ':' :: t2))) with
      | some t => .parsed t
      | none => .failed "无法解析文件名中的时间信息" now
    | _ => .failed "文件名中的时间格式不正确" now
  | _ => .failed "文件名格式不正确" now

/-- Embedding of `renderFrames` (identical in both source files) restricted
to the overlay it composites: when the source is neither paused nor ended
the frame is drawn and the overlay text is
`dayjs(new Date(videoStartTime + video.currentTime * 1000)).format("YYYY-MM-DD HH:mm:ss")`;
otherwise no frame is presented (`none`).  `currentTimeMs` is
`video.currentTime` in milliseconds. -/
def renderFrames (tz videoStartTime : Int) (paused ended : Bool)
    (currentTimeMs : Int) : Option (List Char) :=
  if !paused && !ended then
    some (formatTimestamp tz (videoStartTime + currentTimeMs))
  else none

/-- A 2D-canvas drawing command issued by the compositor: `fillRect` and
`fillText` with their position/size arguments and the current `fillStyle`. -/
inductive DrawOp where
  | fillRect (x y w h : ℚ) (style : String) : DrawOp
  | fillText (x y : ℚ) (text : List Char) (style : String) : DrawOp
deriving DecidableEq

/-- Whether a drawing command is a `fillRect` (a background panel). -/
def DrawOp.isRect : DrawOp → Bool
  | .fillRect _ _ _ _ _ => true
  | .fillText _ _ _ _ => false

/-- The `fillStyle` a drawing command was issued with. -/
def DrawOp.style : DrawOp → String
  | .fillRect _ _ _ _ st => st
  | .fillText _ _ _ st => st

/-- Embedding of `drawWatermark` from `src/src/App.tsx` (variant v1): the
drawing commands it issues.  `textWidth` is the measured
`ctx.measureText(text).width`.  It draws only the text, in
`rgba(255,255,255,0.5)`, at the bottom-right with margin `width / 50`. -/
def drawWatermark_v1 (canvasW canvasH fontSize textWidth : ℚ)
    (text : List Char) : List DrawOp :=
  let padding := canvasW / 50
  let textX := canvasW - textWidth - padding
  let textY := canvasH - padding
  [.fillText textX textY text "rgba(255,255,255,0.5)"]

/-- Embedding of `drawWatermark` from `src/unnamed/part_000` (variant v2):
first a background rectangle in `rgba(0,0,0,0.5)` at
`(textX - padding/2, textY - fontSize)` of size
`(textWidth + padding) × (fontSize + padding/2)`, then the text in
`rgba(255,255,255,0.9)`. -/
def drawWatermark_v2 (canvasW canvasH fontSize textWidth : ℚ)
    (text : List Char) : List DrawOp :=
  let padding := canvasW / 50
  let textX := canvasW - textWidth - padding
  let textY := canvasH - padding
  [.fillRect (textX - padding / 2) (textY - fontSize)
      (textWidth + padding) (fontSize + padding / 2) "rgba(0,0,0,0.5)",
   .fillText textX textY text "rgba(255,255,255,0.9)"]

/-- JavaScript `Math.round`: round half toward positive infinity. -/
def jsRound (q : ℚ) : Int := ⌊q + 1 / 2⌋

/-- Canvas configuration chosen by `handleMetadataLoaded`. -/
structure CanvasSetup where
  width : Nat
  height : Nat
  fontSize : Int
deriving DecidableEq

/-- Embedding of `handleMetadataLoaded` (identical in both source files):
the canvas takes the video's natural dimensions and the font size becomes
`Math.max(16, Math.round(canvas.width / 30))`, fixed at source-load time. -/
def handleMetadataLoaded (videoWidth videoHeight : Nat) : CanvasSetup :=
  { width := videoWidth
    height := videoHeight
    fontSize := max 16 (jsRound ((videoWidth : ℚ) / 30)) }

/-- Run state shared by the capture pipeline and the finalization sequence:
the recorder's activity, its in-flight encoded units (sizes), the
`allChunks` segment buffer (sizes), playback state, published progress,
the published output artifact (segment list plus container extension),
the processing flag and the displayed error messages, in order. -/
structure CaptureState where
  recorderActive : Bool
  pending : List Nat
  chunks : List Nat
  videoPlaying : Bool
  progress : ℚ
  videoURL : Option (List Nat × String)
  isProcessing : Bool
  errors : List String
deriving DecidableEq

/-- Stop-capture step.  The `MediaRecorder.stop()` call is an external
browser facility; per the design document (§4.5) it finalizes any
in-flight unit — delivered through the source's `ondataavailable` handler,
which appends `e.data` to `allChunks` only when `e.data.size > 0` — and
"calling `stop()` when already inactive is a no-op, not an error"
(Modelled from the spec for the inactive case; the handler's size guard
is from the source). -/
def stopRecorder (s : CaptureState) : CaptureState :=
  if s.recorderActive then
    { s with recorderActive := false
             pending := []
             chunks := s.chunks ++ s.pending.filter (fun n => 0 < n) }
  else s

/-- One step of the finalization sequence, for stating in which order the
two variants perform them. -/
inductive FinAction where
  | pauseVideo : FinAction
  | stopCapture : FinAction
  | progressFull : FinAction
  | graceWait : FinAction
  | emptyFail : FinAction
  | concatSegments : FinAction
deriving DecidableEq

/-- Embedding of `finishProcessing` from `src/src/App.tsx` (variant v1):
pause the video, stop the recorder (unguarded `?.stop()`), set progress to
100, wait the fixed 1-second grace interval, then unconditionally build
the output `Blob` from `allChunks` and publish its URL.  Returns the new
state together with the sequence of steps performed. -/
def finishProcessing_v1 (ext : String) (s : CaptureState) :
    CaptureState × List FinAction :=
  let s1 := { s with videoPlaying := false }
  let s2 := stopRecorder s1
  let s3 := { s2 with progress := 100 }
  ({ s3 with videoURL := some (s3.chunks, ext), isProcessing := false },
   [.pauseVideo, .stopCapture, .progressFull, .graceWait, .concatSegments])

/-- Embedding of `finishProcessing` from `src/unnamed/part_000` (variant
v2): stop the recorder first (guarded by `state !== "inactive"`), then
pause the video, set progress to 100, wait the grace interval, and after
the wait fail with the empty-capture error `没有收集到视频数据` when
`allChunks` is empty, otherwise build and publish the `Blob`. -/
def finishProcessing_v2 (ext : String) (s : CaptureState) :
    CaptureState × List FinAction :=
  let s1 := stopRecorder s
  let s2 := { s1 with videoPlaying := false }
  let s3 := { s2 with progress := 100 }
  if s3.chunks.isEmpty then
    ({ s3 with errors := s3.errors ++ ["没有收集到视频数据"]
               isProcessing := false },
     [.stopCapture, .pauseVideo, .progressFull, .graceWait, .emptyFail])
  else
    ({ s3 with videoURL := some (s3.chunks, ext), isProcessing := false },
     [.stopCapture, .pauseVideo, .progressFull, .graceWait, .concatSegments])

/-- Progress-tracking state: the list of progress values published so far
(oldest first), whether finalization has begun (`videoCompleted` was set
and `finishProcessing` ran), and whether the 200 ms interval timer is
still armed. -/
structure TrackerState where
  published : List ℚ
  finalized : Bool
  timerActive : Bool
deriving DecidableEq

/-- Events driving the tracker: a firing of the 200 ms interval timer (with
the playback position, in milliseconds, it observes) and the source's
`ended` event. -/
inductive TrackerEvent where
  | tick (ctMs : ℚ) : TrackerEvent
  | endedEvt : TrackerEvent
deriving DecidableEq

/-- Appends one published progress value. -/
def publishProgress (v : ℚ) (s : TrackerState) : TrackerState :=
  { s with published := s.published ++ [v] }

/-- One event of the tracker, embedded from `processVideo`'s interval
callback and the `onended` handler of `src/src/App.tsx`: a timer tick
first samples `currentTime / duration * 100` (when `duration` is nonzero)
and only then checks `videoCompleted`, clearing the timer if set; the
`ended` event marks completion and runs `finishProcessing`, which
publishes 100. -/
def trackerStep (durationMs : ℚ) (s : TrackerState) : TrackerEvent → TrackerState
  | .tick ct =>
    if s.timerActive then
      let s' := if durationMs ≠ 0 then publishProgress (ct / durationMs * 100) s else s
      if s'.finalized then { s' with timerActive := false } else s'
    else s
  | .endedEvt =>
    if s.finalized then s
    else publishProgress 100 { s with finalized := true }

/-- Tracker state right after `processVideo` starts a run: `setProgress(0)`
has published 0, the interval timer is armed, and the source has not
ended. -/
def initTracker : TrackerState :=
  { published := [0], finalized := false, timerActive := true }

/-- The published-progress trace of one run over a given event sequence. -/
def runTracker (durationMs : ℚ) (evs : List TrackerEvent) : TrackerState :=
  evs.foldl (trackerStep durationMs) initTracker

/-- Well-formed event sequences of one run: playback position is
non-decreasing from `lastCt` and never exceeds the duration, the `ended`
event pins the position to the duration, and after it every observed
position equals the duration (the source is stopped at its end). `fin`
records whether `ended` has already occurred. -/
def wfEvents (durationMs : ℚ) : ℚ → Bool → List TrackerEvent → Bool
  | _, _, [] => true
  | lastCt, fin, .tick ct :: rest =>
    decide (lastCt ≤ ct) && decide (ct ≤ durationMs) &&
      (!fin || decide (ct = durationMs)) && wfEvents durationMs ct fin rest
  | lastCt, _, .endedEvt :: rest =>
    decide (lastCt ≤ durationMs) && wfEvents durationMs durationMs true rest

/-! ### Helper lemmas -/

theorem splitOnChar_of_not_mem {sep : Char} {l : List Char} (h : sep ∉ l) :
    splitOnChar sep l = [l] := by
  induction l with
  | nil => rfl
  | cons c cs ih =>
    have hc : ¬c = sep := fun e => h (e ▸ List.mem_cons_self c cs)
    have hcs : sep ∉ cs := fun m => h (List.mem_cons_of_mem c m)
    simp only [splitOnChar, if_neg hc, ih hcs]

theorem splitOnChar_append {sep : Char} (l1 l2 : List Char) (h : sep ∉ l1) :
    splitOnChar sep (l1 ++ sep :: l2) = l1 :: splitOnChar sep l2 := by
  induction l1 with
  | nil => simp [splitOnChar]
  | cons c cs ih =>
    have hc : ¬c = sep := fun e => h (e ▸ List.mem_cons_self c cs)
    have hcs : sep ∉ cs := fun m => h (List.mem_cons_of_mem c m)
    simp only [List.cons_append, splitOnChar, if_neg hc, List.append_eq, ih hcs]

theorem parseNatAux_digits {l : List Char} :
    ∀ {acc n : Nat}, parseNatAux acc l = some n → ∀ c ∈ l, c.isDigit = true := by
  induction l with
  | nil => intro _ _ _ c hc; cases hc
  | cons x xs ih =>
    intro acc n hp c hc
    unfold parseNatAux at hp
    by_cases hx : x.isDigit
    · rw [if_pos hx] at hp
      cases hc with
      | head => exact hx
      | tail _ hm => exact ih hp c hm
    · rw [if_neg hx] at hp; cases hp

theorem parseNat?_digits {l : List Char} {n : Nat} (h : parseNat? l = some n) :
    ∀ c ∈ l, c.isDigit = true := by
  cases l with
  | nil => intro c hc; cases hc
  | cons x xs => exact parseNatAux_digits h

theorem not_mem_of_all_digit {l : List Char} (hl : ∀ c ∈ l, c.isDigit = true)
    {sep : Char} (hsep : sep.isDigit = false) : sep ∉ l := by
  intro hm
  rw [hl sep hm] at hsep
  cases hsep

theorem not_mem_joined {a b c : List Char} {sepc other : Char}
    (ha : ∀ x ∈ a, x.isDigit = true) (hb : ∀ x ∈ b, x.isDigit = true)
    (hc : ∀ x ∈ c, x.isDigit = true) (hsep : sepc.isDigit = false)
    (hne : sepc ≠ other) : sepc ∉ a ++ other :: (b ++ other :: c) := by
  intro hm
  simp only [List.mem_append, List.mem_cons] at hm
  rcases hm with h1 | h2 | h3 | h4 | h5
  · exact not_mem_of_all_digit ha hsep h1
  · exact hne h2
  · exact not_mem_of_all_digit hb hsep h3
  · exact hne h4
  · exact not_mem_of_all_digit hc hsep h5

/-! ### Claims about the filename timestamp parser (C2, C3, C10) -/

/-- C10: for every filename containing no `.` character the parser always
fails — stripping the extension takes the substring up to the last dot,
which for a dotless name is the empty string, so the underscore-split
yields one part, fewer than two — and the returned TimeOrigin is the
current wall-clock instant `now`. -/
theorem parse_dotless_always_fails (tz now : Int) (f : List Char)
    (h : '.' ∉ f) :
    parseTimeFromFilename tz now f = .failed "文件名格式不正确" now := by
  have hstrip : stripExt f = [] := by simp [stripExt, h]
  simp [parseTimeFromFilename, hstrip, splitOnChar]

/-- C10 witness: the dotless name `2024-03-01_14-05-09-000`, although it
matches `YYYY-MM-DD_HH-MM-SS...` exactly, falls back to `now` (= 777). -/
theorem parse_dotless_always_fails_witness :
    parseTimeFromFilename 0 777 ("2024-03-01_14-05-09-000").toList =
      .failed "文件名格式不正确" 777 :=
  parse_dotless_always_fails 0 777 _ (by decide)

/-- C3: whenever the stripped name has fewer than two underscore-separated
parts, or the time component has fewer than three dash-separated fields,
or the assembled date/time string does not parse to a valid instant, the
parser signals a parse failure (a displayed warning) and returns the
current wall-clock instant `now` as TimeOrigin; the run proceeds. -/
theorem parse_malformed_falls_back (tz now : Int) (f : List Char)
    (h : (splitOnChar '_' (stripExt f)).length < 2
      ∨ (∃ a b rest, splitOnChar '_' (stripExt f) = a :: b :: rest
          ∧ (splitOnChar '-' b).length < 3)
      ∨ (∃ a b rest t0 t1 t2 rt, splitOnChar '_' (stripExt f) = a :: b :: rest
          ∧ splitOnChar '-' b = t0 :: t1 :: t2 :: rt
          ∧ jsDateParse tz (a ++ ' ' :: (t0 ++ ':' :: (t1 ++ ':' :: t2))) = none)) :
    (parseTimeFromFilename tz now f).isFailed = true
    ∧ (parseTimeFromFilename tz now f).time = now := by
  rcases h with h1 | ⟨a, b, rest, hab, hlen⟩ | ⟨a, b, rest, t0, t1, t2, rt, hab, ht, hde⟩
  · match hsp : splitOnChar '_' (stripExt f) with
    | [] => simp [parseTimeFromFilename, hsp, ParseOutcome.isFailed, ParseOutcome.time]
    | [x] => simp [parseTimeFromFilename, hsp, ParseOutcome.isFailed, ParseOutcome.time]
    | x :: y :: ys => rw [hsp] at h1; simp at h1; omega
  · match hts : splitOnChar '-' b with
    | [] => simp [parseTimeFromFilename, hab, hts, ParseOutcome.isFailed, ParseOutcome.time]
    | [x] => simp [parseTimeFromFilename, hab, hts, ParseOutcome.isFailed, ParseOutcome.time]
    | [x, y] => simp [parseTimeFromFilename, hab, hts, ParseOutcome.isFailed, ParseOutcome.time]
    | x :: y :: z :: zs => rw [hts] at hlen; simp at hlen; omega
  · simp [parseTimeFromFilename, hab, ht, hde, ParseOutcome.isFailed, ParseOutcome.time]

/-- C3 witness: `badname.mp4` has a single underscore-separated part, so
parsing fails and the returned TimeOrigin is `now` (= 424242). -/
theorem parse_malformed_falls_back_witness :
    (parseTimeFromFilename 0 424242 ("badname.mp4").toList).isFailed = true
    ∧ (parseTimeFromFilename 0 424242 ("badname.mp4").toList).time = 424242 :=
  parse_malformed_falls_back 0 424242 _ (Or.inl (by decide))

/-- C2: for every filename matching the claimed shape — after stripping
the extension, the underscore-split yields a date part `YYYY-MM-DD` and a
time component whose dash-split has at least three numeric fields
`HH-MM-SS` forming a valid civil date-time, with any further parts or
fields — the parser returns exactly the local-time instant corresponding
to that date and time (`civilToEpochMs`). -/
theorem parse_valid_filename_exact (tz now : Int) (f : List Char)
    (ys mos ds t0 t1 t2 timeComp : List Char) (restU restT : List (List Char))
    (y mo d h mi sec : Nat)
    (hsplit : splitOnChar '_' (stripExt f) =
      (ys ++ '-' :: (mos ++ '-' :: ds)) :: timeComp :: restU)
    (htime : splitOnChar '-' timeComp = t0 :: t1 :: t2 :: restT)
    (hy : parseNat? ys = some y) (hmo : parseNat? mos = some mo)
    (hd : parseNat? ds = some d) (hh : parseNat? t0 = some h)
    (hmi : parseNat? t1 = some mi) (hsec : parseNat? t2 = some sec)
    (hyr : 1000 ≤ y) (hyr' : y ≤ 9999) (hmor : 1 ≤ mo) (hmor' : mo ≤ 12)
    (hdr : 1 ≤ d) (hdr' : d ≤ daysInMonth y mo)
    (hhr : h ≤ 23) (hmir : mi ≤ 59) (hsr : sec ≤ 59) :
    parseTimeFromFilename tz now f = .parsed (civilToEpochMs tz y mo d h mi sec) := by
  have hdy := parseNat?_digits hy
  have hdmo := parseNat?_digits hmo
  have hdd := parseNat?_digits hd
  have hdt0 := parseNat?_digits hh
  have hdt1 := parseNat?_digits hmi
  have hdt2 := parseNat?_digits hsec
  have hspace : (' ' : Char).isDigit = false := by decide
  have hdash : ('-' : Char).isDigit = false := by decide
  have hcolon : (':' : Char).isDigit = false := by decide
  have hnd : ' ' ∉ ys ++ '-' :: (mos ++ '-' :: ds) :=
    not_mem_joined hdy hdmo hdd hspace (by decide)
  have hnt : ' ' ∉ t0 ++ ':' :: (t1 ++ ':' :: t2) :=
    not_mem_joined hdt0 hdt1 hdt2 hspace (by decide)
  have hsp1 : splitOnChar ' '
      ((ys ++ '-' :: (mos ++ '-' :: ds)) ++ ' ' :: (t0 ++ ':' :: (t1 ++ ':' :: t2)))
      = [ys ++ '-' :: (mos ++ '-' :: ds), t0 ++ ':' :: (t1 ++ ':' :: t2)] := by
    rw [splitOnChar_append _ _ hnd, splitOnChar_of_not_mem hnt]
  have hsp2 : splitOnChar '-' (ys ++ '-' :: (mos ++ '-' :: ds)) = [ys, mos, ds] := by
    rw [splitOnChar_append _ _ (not_mem_of_all_digit hdy hdash),
        splitOnChar_append _ _ (not_mem_of_all_digit hdmo hdash),
        splitOnChar_of_not_mem (not_mem_of_all_digit hdd hdash)]
  have hsp3 : splitOnChar ':' (t0 ++ ':' :: (t1 ++ ':' :: t2)) = [t0, t1, t2] := by
    rw [splitOnChar_append _ _ (not_mem_of_all_digit hdt0 hcolon),
        splitOnChar_append _ _ (not_mem_of_all_digit hdt1 hcolon),
        splitOnChar_of_not_mem (not_mem_of_all_digit hdt2 hcolon)]
  have hjs : jsDateParse tz
      ((ys ++ '-' :: (mos ++ '-' :: ds)) ++ ' ' :: (t0 ++ ':' :: (t1 ++ ':' :: t2)))
      = some (civilToEpochMs tz y mo d h mi sec) := by
    rw [jsDateParse, hsp1]
    simp only [hsp2, hsp3, hy, hmo, hd, hh, hmi, hsec]
    rw [if_pos ⟨hyr, hyr', hmor, hmor', hdr, hdr', hhr, hmir, hsr⟩]
  simp only [parseTimeFromFilename, hsplit, htime, hjs]

/-- C2 witness: `2024-03-01_14-05-09-000.mp4` parses (with the local zone
taken as UTC) to the instant 2024-03-01 14:05:09, i.e. epoch milliseconds
1709301909000. -/
theorem parse_valid_filename_exact_witness :
    parseTimeFromFilename 0 0 ("2024-03-01_14-05-09-000.mp4").toList =
      .parsed 1709301909000 :=
  Eq.trans
    (parse_valid_filename_exact 0 0 ("2024-03-01_14-05-09-000.mp4").toList
      ("2024").toList ("03").toList ("01").toList
      ("14").toList ("05").toList ("09").toList ("14-05-09-000").toList
      [] [("000").toList] 2024 3 1 14 5 9
      (by decide) (by decide) (by decide) (by decide) (by decide) (by decide)
      (by decide) (by decide) (by decide) (by decide) (by decide) (by decide)
      (by decide) (by decide) (by decide) (by decide) (by decide))
    (by decide)

/-! ### Claim about the per-frame overlay text (C1) -/

/-- C1: for every presentable frame rendered during a run (source neither
paused nor ended), the overlay text composited onto the frame equals
TimeOrigin plus the current playback offset, formatted as
`YYYY-MM-DD HH:mm:ss`; in particular at playback offset 0 the text equals
TimeOrigin formatted that way, and at offset 65.0 s (65000 ms) it equals
TimeOrigin + 65 seconds. -/
theorem overlay_text_origin_plus_offset (tz origin : Int) (paused ended : Bool)
    (ctMs : Int) (txt : List Char)
    (h : renderFrames tz origin paused ended ctMs = some txt) :
    txt = formatTimestamp tz (origin + ctMs)
    ∧ (ctMs = 0 → txt = formatTimestamp tz origin)
    ∧ (ctMs = 65000 → txt = formatTimestamp tz (origin + 65 * 1000)) := by
  unfold renderFrames at h
  by_cases hp : (!paused && !ended) = true
  · rw [if_pos hp] at h
    obtain rfl := (Option.some.injEq _ _).mp h
    refine ⟨rfl, fun h0 => ?_, fun h65 => ?_⟩
    · rw [h0, add_zero]
    · rw [h65]; norm_num
  · rw [if_neg hp] at h; cases h

/-- C1 witness: with TimeOrigin 2024-01-01 00:00:00 UTC (epoch ms
1704067200000, local zone taken as UTC) and playback offset 65.0 s, the
rendered overlay text is `2024-01-01 00:01:05`. -/
theorem overlay_text_origin_plus_offset_witness :
    renderFrames 0 1704067200000 false false 65000 =
      some (("2024-01-01 00:01:05").toList)
    ∧ ("2024-01-01 00:01:05").toList = formatTimestamp 0 (1704067200000 + 65 * 1000) :=
  ⟨by decide,
   (overlay_text_origin_plus_offset 0 1704067200000 false false 65000
      (("2024-01-01 00:01:05").toList) (by decide)).2.2 rfl⟩

/-! ### Claim about the watermark compositor (C6) -/

/-- C6 counterexample: the App.tsx compositor draws no background panel at
all (no `fillRect` among its drawing commands), and the panel the
part_000 compositor draws has fill style `rgba(0,0,0,0.5)` — a
half-transparent black, not an opaque panel.  So the claim that every
composited frame gets an opaque background panel is false. -/
theorem watermark_counterexample :
    (drawWatermark_v1 1920 1080 64 500 (("2024-01-01 00:00:00").toList)).filter
        DrawOp.isRect = []
    ∧ ((drawWatermark_v2 1920 1080 64 500 (("2024-01-01 00:00:00").toList)).filter
        DrawOp.isRect).map DrawOp.style = ["rgba(0,0,0,0.5)"] := by
  decide

/-- C6 amended: the App.tsx variant draws only the timestamp text, in
half-transparent white `rgba(255,255,255,0.5)`, at the bottom-right with
margin `width / 50` and no background panel; the part_000 variant first
draws a half-transparent black panel `rgba(0,0,0,0.5)` of size
`(textWidth + padding) × (fontSize + padding/2)` whose right and bottom
edges sit at margin `padding / 2 = width / 100` from the corner, then
draws the text on top in `rgba(255,255,255,0.9)` at margin `width / 50`. -/
theorem watermark_amended (w h fs tw : ℚ) (text : List Char) :
    drawWatermark_v1 w h fs tw text =
      [.fillText (w - tw - w / 50) (h - w / 50) text "rgba(255,255,255,0.5)"]
    ∧ drawWatermark_v2 w h fs tw text =
      [.fillRect (w - tw - w / 50 - w / 50 / 2) (h - w / 50 - fs)
          (tw + w / 50) (fs + w / 50 / 2) "rgba(0,0,0,0.5)",
       .fillText (w - tw - w / 50) (h - w / 50) text "rgba(255,255,255,0.9)"]
    ∧ (w - tw - w / 50 - w / 50 / 2) + (tw + w / 50) = w - w / 100
    ∧ (h - w / 50 - fs) + (fs + w / 50 / 2) = h - w / 100 :=
  ⟨rfl, rfl, by ring, by ring⟩

/-! ### Claim about the font size (C7) -/

/-- C7: the font size chosen at source-load time equals
`max(16, round(frameWidth / 30))`; as a function of frame width it is
monotonically non-decreasing, and for every frame width it never falls
below the floor of 16. -/
theorem font_size_formula_monotone_floor (wd wd' ht ht' : Nat) :
    (handleMetadataLoaded wd ht).fontSize = max 16 (jsRound ((wd : ℚ) / 30))
    ∧ (wd ≤ wd' →
        (handleMetadataLoaded wd ht).fontSize ≤ (handleMetadataLoaded wd' ht').fontSize)
    ∧ 16 ≤ (handleMetadataLoaded wd ht).fontSize := by
  refine ⟨rfl, fun hw => ?_, le_max_left _ _⟩
  show max 16 (jsRound ((wd : ℚ) / 30)) ≤ max 16 (jsRound ((wd' : ℚ) / 30))
  apply max_le_max (le_refl 16)
  apply Int.floor_le_floor
  have hc : (wd : ℚ) ≤ (wd' : ℚ) := by exact_mod_cast hw
  linarith

/-- C7 witness: at widths 320 and 1920 the formula holds, the size is
monotone across 320 ≤ 1920, and the floor of 16 holds. -/
theorem font_size_formula_monotone_floor_witness :
    (handleMetadataLoaded 320 240).fontSize = max 16 (jsRound ((320 : ℚ) / 30))
    ∧ (handleMetadataLoaded 320 240).fontSize ≤ (handleMetadataLoaded 1920 1080).fontSize
    ∧ 16 ≤ (handleMetadataLoaded 320 240).fontSize :=
  ⟨(font_size_formula_monotone_floor 320 1920 240 1080).1,
   (font_size_formula_monotone_floor 320 1920 240 1080).2.1 (by decide),
   (font_size_formula_monotone_floor 320 1920 240 1080).2.2⟩

/-! ### Claims about stop-capture and finalization (C4, C5, C9) -/

theorem stopRecorder_videoURL (s : CaptureState) :
    (stopRecorder s).videoURL = s.videoURL := by
  by_cases h : s.recorderActive <;> simp [stopRecorder, h]

theorem stopRecorder_errors (s : CaptureState) :
    (stopRecorder s).errors = s.errors := by
  by_cases h : s.recorderActive <;> simp [stopRecorder, h]

/-- A run state in which the recorder is already inactive. -/
def idleRun : CaptureState :=
  { recorderActive := false, pending := [], chunks := [5, 7]
    videoPlaying := false, progress := 0, videoURL := none
    isProcessing := true, errors := [] }

/-- A run state reaching finalization with an empty SegmentBuffer and
nothing in flight. -/
def emptyRun : CaptureState :=
  { recorderActive := true, pending := [], chunks := []
    videoPlaying := true, progress := 0, videoURL := none
    isProcessing := true, errors := [] }

/-- A run state reaching finalization with one buffered segment and one
in-flight unit. -/
def fullRun : CaptureState :=
  { recorderActive := true, pending := [3], chunks := [5]
    videoPlaying := true, progress := 0, videoURL := none
    isProcessing := true, errors := [] }

/-- C5: stopping the Capture Pipeline is idempotent — for every run state,
stopping twice in a row equals stopping once (so the second stop appends
no SegmentBuffer entries), stop-capture never touches the error stream,
and a stop when the encoder is already inactive is the identity. -/
theorem stop_capture_idempotent (s : CaptureState) :
    stopRecorder (stopRecorder s) = stopRecorder s
    ∧ (stopRecorder s).errors = s.errors
    ∧ (s.recorderActive = false → stopRecorder s = s) := by
  refine ⟨?_, stopRecorder_errors s, fun h => ?_⟩
  · by_cases h : s.recorderActive <;> simp [stopRecorder, h]
  · simp [stopRecorder, h]

/-- C5 witness: from a state whose recorder is already inactive, stopping
twice equals stopping once, no error is recorded, and the stop is the
identity. -/
theorem stop_capture_idempotent_witness :
    stopRecorder (stopRecorder idleRun) = stopRecorder idleRun
    ∧ (stopRecorder idleRun).errors = idleRun.errors
    ∧ stopRecorder idleRun = idleRun :=
  ⟨(stop_capture_idempotent idleRun).1, (stop_capture_idempotent idleRun).2.1,
   (stop_capture_idempotent idleRun).2.2 rfl⟩

/-- C4 counterexample: in the App.tsx variant, finalizing a run whose
SegmentBuffer holds zero segments publishes an (empty) OutputArtifact and
reports no error at all — the distinct empty-capture failure required by
the claim never happens there. -/
theorem finalize_empty_counterexample :
    (finishProcessing_v1 "mp4" emptyRun).1.videoURL = some ([], "mp4")
    ∧ (finishProcessing_v1 "mp4" emptyRun).1.errors = [] := by
  decide

/-- C4 amended: only the part_000 variant implements the guarantee — there
finalization with an empty SegmentBuffer (after the stop flush) fails
with the distinct empty-capture error `没有收集到视频数据` and publishes
no artifact, and an artifact is published exactly when the buffer is
nonempty; the App.tsx variant performs no emptiness check and publishes
an artifact unconditionally, even from zero segments. -/
theorem finalize_empty_amended (ext : String) (s : CaptureState) :
    ((stopRecorder s).chunks = [] →
      (finishProcessing_v2 ext s).1.videoURL = s.videoURL
      ∧ (finishProcessing_v2 ext s).1.errors = s.errors ++ ["没有收集到视频数据"])
    ∧ ((stopRecorder s).chunks ≠ [] →
      (finishProcessing_v2 ext s).1.videoURL = some ((stopRecorder s).chunks, ext)
      ∧ (finishProcessing_v2 ext s).1.errors = s.errors)
    ∧ (finishProcessing_v1 ext s).1.videoURL =
        some ((stopRecorder { s with videoPlaying := false }).chunks, ext) := by
  refine ⟨fun he => ?_, fun hne => ?_, ?_⟩
  · simp [finishProcessing_v2, he, stopRecorder_videoURL, stopRecorder_errors]
  · simp [finishProcessing_v2, hne, stopRecorder_errors]
  · simp [finishProcessing_v1]

/-- C4 witness: on the concrete empty run the part_000 variant publishes
nothing and records the empty-capture error; on a run with segments it
publishes the buffered segments; the App.tsx variant publishes even on
the empty run. -/
theorem finalize_empty_amended_witness :
    ((finishProcessing_v2 "mp4" emptyRun).1.videoURL = emptyRun.videoURL
      ∧ (finishProcessing_v2 "mp4" emptyRun).1.errors =
          emptyRun.errors ++ ["没有收集到视频数据"])
    ∧ ((finishProcessing_v2 "webm" fullRun).1.videoURL =
          some ((stopRecorder fullRun).chunks, "webm")
      ∧ (finishProcessing_v2 "webm" fullRun).1.errors = fullRun.errors)
    ∧ (finishProcessing_v1 "mp4" emptyRun).1.videoURL =
        some ((stopRecorder { emptyRun with videoPlaying := false }).chunks, "mp4") :=
  ⟨(finalize_empty_amended "mp4" emptyRun).1 (by decide),
   (finalize_empty_amended "webm" fullRun).2.1 (by decide),
   (finalize_empty_amended "mp4" emptyRun).2.2⟩

/-- C9 counterexample: in the part_000 variant the finalization sequence
stops the Capture Pipeline first and pauses source playback second, so
the claimed for-every-run order "first pause, then stop capture" is
false. -/
theorem finalize_order_counterexample :
    (finishProcessing_v2 "mp4" fullRun).2 =
      [.stopCapture, .pauseVideo, .progressFull, .graceWait, .concatSegments]
    ∧ List.indexOf FinAction.stopCapture ((finishProcessing_v2 "mp4" fullRun).2) <
        List.indexOf FinAction.pauseVideo ((finishProcessing_v2 "mp4" fullRun).2) := by
  decide

/-- C9 amended: the App.tsx variant finalizes in the order pause source →
stop capture → progress 100 → fixed grace wait → concatenate; the
part_000 variant stops the capture pipeline first, then pauses, then
waits the grace interval, and only after the wait either fails on an
empty buffer or concatenates.  In both variants concatenation comes only
after the grace wait. -/
theorem finalize_order_amended (ext : String) (s : CaptureState) :
    (finishProcessing_v1 ext s).2 =
      [.pauseVideo, .stopCapture, .progressFull, .graceWait, .concatSegments]
    ∧ (finishProcessing_v2 ext s).2 =
        (if (stopRecorder s).chunks.isEmpty then
          [.stopCapture, .pauseVideo, .progressFull, .graceWait, .emptyFail]
        else
          [.stopCapture, .pauseVideo, .progressFull, .graceWait, .concatSegments]) := by
  refine ⟨rfl, ?_⟩
  by_cases h : (stopRecorder s).chunks.isEmpty <;> simp [finishProcessing_v2, h]

/-! ### Claim about the progress tracker (C8) -/

theorem chain'_concat_of_last {l : List ℚ} {v : ℚ}
    (hch : List.Chain' (· ≤ ·) l) (hl : ∀ p ∈ l.getLast?, p ≤ v) :
    List.Chain' (· ≤ ·) (l ++ [v]) := by
  rw [List.chain'_append]
  refine ⟨hch, List.chain'_singleton v, fun x hx y hy => ?_⟩
  simp only [List.head?_cons, Option.mem_def, Option.some.injEq] at hy
  exact hy ▸ hl x hx

theorem tracker_chain_aux (D : ℚ) (hD : 0 < D) (evs : List TrackerEvent) :
    ∀ (pub : List ℚ) (fin timer : Bool) (lastCt : ℚ),
      0 ≤ lastCt →
      wfEvents D lastCt fin evs = true →
      List.Chain' (· ≤ ·) pub →
      (∀ p ∈ pub.getLast?, p ≤ (if fin then 100 else lastCt / D * 100)) →
      List.Chain' (· ≤ ·)
        ((evs.foldl (trackerStep D) ⟨pub, fin, timer⟩).published) := by
  have hDne : D ≠ 0 := ne_of_gt hD
  induction evs with
  | nil => intro pub fin timer lastCt _ _ hch _; simpa using hch
  | cons e rest ih =>
    intro pub fin timer lastCt hct hwf hch hlast
    cases e with
    | tick ct =>
      simp only [wfEvents, Bool.and_eq_true, decide_eq_true_eq, Bool.or_eq_true,
        Bool.not_eq_true'] at hwf
      obtain ⟨⟨⟨h1, h2⟩, h3⟩, hrest⟩ := hwf
      have hctv : 0 ≤ ct := le_trans hct h1
      have hmono : lastCt / D * 100 ≤ ct / D * 100 :=
        mul_le_mul_of_nonneg_right (div_le_div_of_nonneg_right h1 hD.le) (by norm_num)
      cases fin with
      | false =>
        have hle : ∀ p ∈ pub.getLast?, p ≤ ct / D * 100 := by
          intro p hp
          have h := hlast p hp
          simp only [Bool.false_eq_true, if_false] at h
          exact le_trans h hmono
        cases timer with
        | false =>
          rw [List.foldl_cons, show trackerStep D ⟨pub, false, false⟩
              (TrackerEvent.tick ct) = (⟨pub, false, false⟩ : TrackerState) from by
            simp [trackerStep]]
          apply ih pub false false ct hctv hrest hch
          intro p hp
          simpa using hle p hp
        | true =>
          rw [List.foldl_cons, show trackerStep D ⟨pub, false, true⟩
              (TrackerEvent.tick ct) =
              (⟨pub ++ [ct / D * 100], false, true⟩ : TrackerState) from by
            simp [trackerStep, publishProgress, hDne]]
          apply ih (pub ++ [ct / D * 100]) false true ct hctv hrest
            (chain'_concat_of_last hch hle)
          intro p hp
          rw [List.getLast?_concat] at hp
          simp only [Option.mem_def, Option.some.injEq] at hp
          simpa using le_of_eq hp.symm
      | true =>
        have hctD : ct = D := by
          rcases h3 with h3 | h3
          · cases h3
          · exact h3
        have h100 : ct / D * 100 = 100 := by
          rw [hctD, div_self hDne, one_mul]
        have hle : ∀ p ∈ pub.getLast?, p ≤ ct / D * 100 := by
          intro p hp
          have h := hlast p hp
          simp only [if_true] at h
          rw [h100]
          exact h
        cases timer with
        | false =>
          rw [List.foldl_cons, show trackerStep D ⟨pub, true, false⟩
              (TrackerEvent.tick ct) = (⟨pub, true, false⟩ : TrackerState) from by
            simp [trackerStep]]
          apply ih pub true false ct hctv hrest hch
          intro p hp
          simpa using hlast p hp
        | true =>
          rw [List.foldl_cons, show trackerStep D ⟨pub, true, true⟩
              (TrackerEvent.tick ct) =
              (⟨pub ++ [ct / D * 100], true, false⟩ : TrackerState) from by
            simp [trackerStep, publishProgress, hDne]]
          apply ih (pub ++ [ct / D * 100]) true false ct hctv hrest
            (chain'_concat_of_last hch hle)
          intro p hp
          rw [List.getLast?_concat] at hp
          simp only [Option.mem_def, Option.some.injEq] at hp
          rw [← hp, h100]
          simp
    | endedEvt =>
      simp only [wfEvents, Bool.and_eq_true, decide_eq_true_eq] at hwf
      obtain ⟨h1, hrest⟩ := hwf
      have hDnn : 0 ≤ D := le_of_lt hD
      cases fin with
      | true =>
        rw [List.foldl_cons, show trackerStep D ⟨pub, true, timer⟩
            TrackerEvent.endedEvt = (⟨pub, true, timer⟩ : TrackerState) from by
          simp [trackerStep]]
        apply ih pub true timer D hDnn hrest hch
        intro p hp
        simpa using hlast p hp
      | false =>
        have hboundD : lastCt / D * 100 ≤ 100 := by
          have hd1 : lastCt / D ≤ 1 := (div_le_one hD).mpr h1
          nlinarith
        have hle : ∀ p ∈ pub.getLast?, p ≤ (100 : ℚ) := by
          intro p hp
          have h := hlast p hp
          simp only [Bool.false_eq_true, if_false] at h
          exact le_trans h hboundD
        rw [List.foldl_cons, show trackerStep D ⟨pub, false, timer⟩
            TrackerEvent.endedEvt = (⟨pub ++ [100], true, timer⟩ : TrackerState) from by
          simp [trackerStep, publishProgress]]
        apply ih (pub ++ [100]) true timer D hDnn hrest
          (chain'_concat_of_last hch hle)
        intro p hp
        rw [List.getLast?_concat] at hp
        simp only [Option.mem_def, Option.some.injEq] at hp
        rw [← hp]
        simp

theorem tracker_no_hundred_aux (D : ℚ) (hD : 0 < D) (evs : List TrackerEvent) :
    ∀ (pub : List ℚ) (timer : Bool),
      (∀ ct, TrackerEvent.tick ct ∈ evs → ct < D) →
      TrackerEvent.endedEvt ∉ evs →
      (100 : ℚ) ∉ pub →
      (100 : ℚ) ∉ ((evs.foldl (trackerStep D) ⟨pub, false, timer⟩).published) := by
  have hDne : D ≠ 0 := ne_of_gt hD
  induction evs with
  | nil => intro pub timer _ _ h; simpa using h
  | cons e rest ih =>
    intro pub timer hlt hne h100
    cases e with
    | tick ct =>
      have hct : ct < D := hlt ct (List.mem_cons_self _ _)
      have hlt' : ∀ c, TrackerEvent.tick c ∈ rest → c < D :=
        fun c hc => hlt c (List.mem_cons_of_mem _ hc)
      have hne' : TrackerEvent.endedEvt ∉ rest :=
        fun hc => hne (List.mem_cons_of_mem _ hc)
      have hv : ct / D * 100 < 100 := by
        have hd1 : ct / D < 1 := (div_lt_one hD).mpr hct
        nlinarith
      cases timer with
      | false =>
        rw [List.foldl_cons, show trackerStep D ⟨pub, false, false⟩
            (TrackerEvent.tick ct) = (⟨pub, false, false⟩ : TrackerState) from by
          simp [trackerStep]]
        exact ih pub false hlt' hne' h100
      | true =>
        rw [List.foldl_cons, show trackerStep D ⟨pub, false, true⟩
            (TrackerEvent.tick ct) =
            (⟨pub ++ [ct / D * 100], false, true⟩ : TrackerState) from by
          simp [trackerStep, publishProgress, hDne]]
        apply ih (pub ++ [ct / D * 100]) true hlt' hne'
        simp only [List.mem_append, List.mem_singleton]
        rintro (h | h)
        · exact h100 h
        · exact absurd h.symm (ne_of_lt hv)
    | endedEvt => exact absurd (List.mem_cons_self _ _) hne

theorem tracker_post_final_le_one (D : ℚ) (post : List TrackerEvent) :
    ∀ (pub : List ℚ) (timer : Bool),
      (post.foldl (trackerStep D) ⟨pub, true, timer⟩).published.length ≤
        pub.length + (if timer then 1 else 0) := by
  induction post with
  | nil =>
    intro pub timer
    simp only [List.foldl_nil]
    split <;> omega
  | cons e rest ih =>
    intro pub timer
    cases e with
    | tick ct =>
      cases timer with
      | false =>
        rw [List.foldl_cons, show trackerStep D ⟨pub, true, false⟩
            (TrackerEvent.tick ct) = (⟨pub, true, false⟩ : TrackerState) from by
          simp [trackerStep]]
        exact ih pub false
      | true =>
        by_cases hz : D = 0
        · rw [List.foldl_cons, show trackerStep D ⟨pub, true, true⟩
              (TrackerEvent.tick ct) = (⟨pub, true, false⟩ : TrackerState) from by
            simp [trackerStep, hz]]
          have h := ih pub false
          simp only [Bool.false_eq_true, if_false] at h
          simp only [if_true]
          omega
        · rw [List.foldl_cons, show trackerStep D ⟨pub, true, true⟩
              (TrackerEvent.tick ct) =
              (⟨pub ++ [ct / D * 100], true, false⟩ : TrackerState) from by
            simp [trackerStep, publishProgress, hz]]
          have h := ih (pub ++ [ct / D * 100]) false
          simp only [List.length_append, List.length_singleton,
            Bool.false_eq_true, if_false] at h
          simp only [if_true]
          omega
    | endedEvt =>
      rw [List.foldl_cons, show trackerStep D ⟨pub, true, timer⟩
          TrackerEvent.endedEvt = (⟨pub, true, timer⟩ : TrackerState) from by
        simp [trackerStep]]
      exact ih pub timer

/-- C8 counterexample: in a run of duration 10 s, after the `ended` event
has started finalization (publishing 100), a later firing of the 200 ms
interval timer still samples the ended source and publishes one more
progress value before clearing itself — the interval callback samples
first and only then checks the completion flag — so the claim that no
progress sample is taken after finalization begins is false. -/
theorem tracker_counterexample :
    (runTracker 10000 [TrackerEvent.endedEvt]).published = [0, 100]
    ∧ (runTracker 10000 [TrackerEvent.endedEvt, TrackerEvent.tick 10000]).published =
        [0, 100, 100]
    ∧ wfEvents 10000 0 false [TrackerEvent.endedEvt, TrackerEvent.tick 10000] = true := by
  refine ⟨?_, ?_, ?_⟩
  · simp only [runTracker, initTracker, List.foldl_cons, List.foldl_nil, trackerStep,
      publishProgress]
    norm_num
  · simp only [runTracker, initTracker, List.foldl_cons, List.foldl_nil, trackerStep,
      publishProgress]
    norm_num
  · simp only [wfEvents]
    norm_num

/-- C8 amended: within one run (a well-formed event sequence: playback
position non-decreasing, never beyond the duration, and pinned to the
duration once the source has ended) the published progress values are
non-decreasing; they never reach 100 while no `ended` event has occurred
and every sampled position is strictly below the duration; and after
finalization begins at most one further progress value is ever published
(the first subsequent timer tick samples once and clears the timer). -/
theorem tracker_amended (D : ℚ) (hD : 0 < D) :
    (∀ evs, wfEvents D 0 false evs = true →
        List.Chain' (· ≤ ·) ((runTracker D evs).published))
    ∧ (∀ evs, (∀ ct, TrackerEvent.tick ct ∈ evs → ct < D) →
        TrackerEvent.endedEvt ∉ evs →
        (100 : ℚ) ∉ (runTracker D evs).published)
    ∧ (∀ (s : TrackerState) (post : List TrackerEvent), s.finalized = true →
        (post.foldl (trackerStep D) s).published.length ≤
          s.published.length + (if s.timerActive then 1 else 0)) := by
  refine ⟨fun evs hwf => ?_, fun evs hlt hne => ?_, fun s post hfin => ?_⟩
  · show List.Chain' (· ≤ ·)
      ((evs.foldl (trackerStep D) ⟨[0], false, true⟩).published)
    apply tracker_chain_aux D hD evs [0] false true 0 (le_refl 0) hwf
      (List.chain'_singleton 0)
    intro p hp
    simp only [List.getLast?_singleton, Option.mem_def, Option.some.injEq] at hp
    simp only [Bool.false_eq_true, if_neg Bool.false_ne_true, zero_div, zero_mul]
    exact le_of_eq hp.symm
  · show (100 : ℚ) ∉ ((evs.foldl (trackerStep D) ⟨[0], false, true⟩).published)
    apply tracker_no_hundred_aux D hD evs [0] true hlt hne
    norm_num
  · obtain ⟨pub, fin, timer⟩ := s
    simp only at hfin
    subst hfin
    exact tracker_post_final_le_one D post pub timer

/-- C8 witness: at duration 10 s, a well-formed run `[tick 5000, ended,
tick 10000]` has a non-decreasing published trace; a run of ticks
strictly inside the video never publishes 100; and from a concrete
finalized state with the timer armed, any remaining events publish at
most one further value. -/
theorem tracker_amended_witness :
    List.Chain' (· ≤ ·)
      ((runTracker 10000 [TrackerEvent.tick 5000, TrackerEvent.endedEvt,
          TrackerEvent.tick 10000]).published)
    ∧ (100 : ℚ) ∉
        (runTracker 10000 [TrackerEvent.tick 2000, TrackerEvent.tick 5000]).published
    ∧ (([TrackerEvent.tick 10000, TrackerEvent.tick 10000].foldl (trackerStep 10000)
          { published := [0, 100], finalized := true, timerActive := true }).published.length ≤
        ([0, 100] : List ℚ).length + (if true then 1 else 0)) :=
  ⟨(tracker_amended 10000 (by norm_num)).1 _ (by decide),
   (tracker_amended 10000 (by norm_num)).2.1 _
     (by intro ct hct
         simp only [List.mem_cons, List.not_mem_nil, or_false] at hct
         rcases hct with h | h <;> · injection h with h; rw [h]; norm_num)
     (by decide),
   (tracker_amended 10000 (by norm_num)).2.2 _ _ rfl⟩
